import Mathlib

/-!
Verification of the metrics aggregation engine of the stock-screener
repository against its specification.

The shallow embedding below follows two Python modules:

* `app/processors/summary_report_generator.py` — lookup construction
  (`HistoricalMetricsLoader.build_lookups_from_metrics`), the metric
  calculator (`MetricCalculator`), and the report assembler
  (`ReportAssembler.assemble`);
* `app/processors/metrics_precomputer.py` — the long-ledger builder
  (`MetricsPrecomputer.precompute`).

Modelling conventions:

* Python floats are embedded as `ℚ`; `np.nan` / a missing key is `none`
  in `Option ℚ` (the code tests every value with `pd.isna` before use,
  so absence is the only float special value that matters here).
* Fiscal years, kept as decimal strings in the Python code and converted
  with `int(...)` wherever arithmetic is needed, are embedded as `Int`;
  the f-string join `f"{y}{q}"` and the slicing `s[:3]` / `s[3:]` used
  for season tags round-trip exactly for the three-digit ROC years the
  system processes, so a season is embedded directly as the pair
  `(year, quarter)`.
* Python's `round(x, 2)` is embedded as `round2` (scale by 100, round to
  the nearest integer, scale back).  The claims under verification only
  depend on rounding being a fixed two-decimal rounding, not on the
  floating-point tie-breaking rule.
* `dict` objects keyed by tuples are embedded as total functions into
  `Option ℚ` (`dict.get(key, nan)` is exactly application); the report
  row `dict`, whose insertion order matters, is embedded as an
  association list with Python's update semantics (`setKey`).
-/

namespace StockScreener

/-- A nullable numeric cell: `none` is `np.nan` / a missing value. -/
abbrev Value := Option ℚ

/-- Embedding of Python's `round(x, 2)`. -/
def round2 (q : ℚ) : ℚ := (round (q * 100) : ℚ) / 100

theorem round2_intCast (n : ℤ) : round2 (n : ℚ) = n := by
  rw [round2, show ((n : ℚ) * 100) = ((n * 100 : ℤ) : ℚ) by push_cast; ring,
    round_intCast]
  push_cast
  rw [mul_div_assoc]
  norm_num

/-- One row of the long ledger `historical_metrics.csv`
(columns `code, year, quarter, eps, profit, equity, cash_dividend`).
Rows of the three source tables are embedded with the same type, their
absent columns set to `none`. -/
structure LedgerRow where
  code : String
  year : Int
  quarter : String
  eps : Value
  profit : Value
  equity : Value
  cash_dividend : Value
  deriving DecidableEq, Repr

/-- The join key (code, year, quarter) used throughout. -/
def rkey (r : LedgerRow) : String × Int × String := (r.code, r.year, r.quarter)

/-- The four point-lookup structures built by
`HistoricalMetricsLoader.build_lookups_from_metrics`. -/
structure Lookups where
  eps : String → Int → String → Value
  profit : String → Int → Value
  equity : String → Int → String → Value
  dividend : String → Int → Value

/-- Point update of a (code, year, quarter)-keyed lookup. -/
def update3 (f : String → Int → String → Value) (c : String) (y : Int)
    (q : String) (v : ℚ) : String → Int → String → Value :=
  fun c' y' q' => if c' = c ∧ y' = y ∧ q' = q then some v else f c' y' q'

/-- Point update of a (code, year)-keyed lookup. -/
def update2 (f : String → Int → Value) (c : String) (y : Int) (v : ℚ) :
    String → Int → Value :=
  fun c' y' => if c' = c ∧ y' = y then some v else f c' y'

/-- One iteration of the row loop of `build_lookups_from_metrics`:
skip rows with an empty code or quarter tag, record eps and equity at the
(code, year, quarter) key, record profit at (code, year) only for `Q4`
rows, and for `Y1` rows record the cash dividend at (code, year) only
when no value is present yet or the new value is strictly larger. -/
def build_lookups_step (L : Lookups) (r : LedgerRow) : Lookups :=
  if r.code = "" ∨ r.quarter = "" then L
  else
    let L1 := match r.eps with
      | some v => { L with eps := update3 L.eps r.code r.year r.quarter v }
      | none => L
    let L2 := match r.profit with
      | some v =>
          if r.quarter = "Q4" then
            { L1 with profit := update2 L1.profit r.code r.year v }
          else L1
      | none => L1
    let L3 := match r.equity with
      | some v => { L2 with equity := update3 L2.equity r.code r.year r.quarter v }
      | none => L2
    if r.quarter = "Y1" then
      match r.cash_dividend with
      | some v =>
          match L3.dividend r.code r.year with
          | none => { L3 with dividend := update2 L3.dividend r.code r.year v }
          | some old =>
              if v > old then { L3 with dividend := update2 L3.dividend r.code r.year v }
              else L3
      | none => L3
    else L3

/-- The empty lookup state the row loop starts from. -/
def emptyLookups : Lookups :=
  ⟨fun _ _ _ => none, fun _ _ => none, fun _ _ _ => none, fun _ _ => none⟩

/-- `HistoricalMetricsLoader.build_lookups_from_metrics`: a single pass
over the long-ledger rows. -/
def build_lookups (rows : List LedgerRow) : Lookups :=
  rows.foldl build_lookups_step emptyLookups

/-- The cash-dividend values observed on `Y1` rows for a given
(code, year) key (rows with an empty code are skipped by the loop). -/
def y1_div_values (rows : List LedgerRow) (code : String) (year : Int) : List ℚ :=
  rows.filterMap (fun r =>
    if r.code = code ∧ r.year = year ∧ r.quarter = "Y1" ∧ r.code ≠ "" then
      r.cash_dividend
    else none)

/-- Maximum of a list of rationals, `none` on the empty list. -/
def list_max : List ℚ → Option ℚ
  | [] => none
  | x :: xs => some (xs.foldl max x)

/-- Running-maximum combination: fold one more observed value into an
optional running maximum. -/
def omax (a : Option ℚ) (v : ℚ) : Option ℚ :=
  some (a.elim v (fun w => max w v))

theorem omax_eq (a : Option ℚ) (v : ℚ) :
    omax a v = match a with
      | none => some v
      | some old => if old < v then some v else some old := by
  cases a with
  | none => rfl
  | some w =>
    simp only [omax, Option.elim]
    rcases lt_trichotomy w v with h | h | h
    · simp [max_eq_right h.le, h]
    · simp [h]
    · simp [max_eq_left h.le, not_lt_of_lt h]

/-- The dividend component of one `build_lookups_from_metrics` row step,
isolated from the eps/profit/equity updates (which never touch it). -/
theorem build_lookups_step_dividend_field (L : Lookups) (r : LedgerRow) :
    (build_lookups_step L r).dividend =
      if r.code = "" ∨ r.quarter = "" then L.dividend
      else if r.quarter = "Y1" then
        match r.cash_dividend with
        | some v =>
            (match L.dividend r.code r.year with
             | none => update2 L.dividend r.code r.year v
             | some old =>
                 if v > old then update2 L.dividend r.code r.year v
                 else L.dividend)
        | none => L.dividend
      else L.dividend := by
  rcases r with ⟨c, y, q, e, p, eq, cd⟩
  cases e <;> cases p <;> cases eq <;> cases cd <;>
    simp only [build_lookups_step] <;>
    (repeat' first | rfl | (split <;> try rfl)) <;>
    simp_all <;>
    (exfalso; linarith)

theorem dividend_step_apply (L : Lookups) (r : LedgerRow)
    (code : String) (year : Int) :
    (build_lookups_step L r).dividend code year =
      if r.code = code ∧ r.year = year ∧ r.quarter = "Y1" ∧ r.code ≠ "" then
        match r.cash_dividend with
        | some v => omax (L.dividend code year) v
        | none => L.dividend code year
      else L.dividend code year := by
  rw [build_lookups_step_dividend_field]
  by_cases hcond : r.code = code ∧ r.year = year ∧ r.quarter = "Y1" ∧ r.code ≠ ""
  · obtain ⟨h1, h2, h3, h4⟩ := hcond
    rw [if_neg (show ¬ (r.code = "" ∨ r.quarter = "") by
      rintro (h | h)
      · exact h4 h
      · rw [h] at h3; exact absurd h3 (by decide))]
    rw [if_pos h3, if_pos ⟨h1, h2, h3, h4⟩]
    cases hcd : r.cash_dividend with
    | none => rfl
    | some v =>
      dsimp only
      rw [h1, h2, omax_eq]
      cases hL : L.dividend code year with
      | none => dsimp only; simp [update2]
      | some old =>
        dsimp only
        by_cases hvo : old < v
        · rw [if_pos (show v > old from hvo), if_pos hvo]
          simp [update2]
        · rw [if_neg (show ¬ v > old from hvo), if_neg hvo, hL]
  · rw [if_neg hcond]
    by_cases hguard : r.code = "" ∨ r.quarter = ""
    · rw [if_pos hguard]
    · rw [if_neg hguard]
      push_neg at hguard
      by_cases hy1 : r.quarter = "Y1"
      · rw [if_pos hy1]
        cases hcd : r.cash_dividend with
        | none => rfl
        | some v =>
          dsimp only
          have hkey : ¬ (r.code = code ∧ r.year = year) := by
            intro h; exact hcond ⟨h.1, h.2, hy1, hguard.1⟩
          have hupd : update2 L.dividend r.code r.year v code year =
              L.dividend code year := by
            simp only [update2]
            rw [if_neg]
            rintro ⟨ha, hb⟩; exact hkey ⟨ha.symm, hb.symm⟩
          cases hL : L.dividend r.code r.year with
          | none => exact hupd
          | some old =>
            dsimp only
            by_cases hvo : v > old
            · rw [if_pos hvo]; exact hupd
            · rw [if_neg hvo]
      · rw [if_neg hy1]

theorem dividend_foldl (rows : List LedgerRow) :
    ∀ (L : Lookups) (code : String) (year : Int),
    (rows.foldl build_lookups_step L).dividend code year =
      (y1_div_values rows code year).foldl omax (L.dividend code year) := by
  induction rows with
  | nil => intro L code year; simp [y1_div_values]
  | cons r rs ih =>
    intro L code year
    rw [List.foldl_cons, ih]
    by_cases hcond : r.code = code ∧ r.year = year ∧ r.quarter = "Y1" ∧ r.code ≠ ""
    · obtain ⟨hc1, hc2, hc3, hc4⟩ := hcond
      cases hcd : r.cash_dividend with
      | some v =>
        have hval : y1_div_values (r :: rs) code year =
            v :: y1_div_values rs code year := by
          simp only [y1_div_values, List.filterMap_cons]
          rw [if_pos ⟨hc1, hc2, hc3, hc4⟩, hcd]
        rw [hval, List.foldl_cons]
        congr 1
        rw [dividend_step_apply, if_pos ⟨hc1, hc2, hc3, hc4⟩, hcd]
      | none =>
        have hval : y1_div_values (r :: rs) code year =
            y1_div_values rs code year := by
          simp only [y1_div_values, List.filterMap_cons]
          rw [if_pos ⟨hc1, hc2, hc3, hc4⟩, hcd]
        rw [hval]
        congr 1
        rw [dividend_step_apply, if_pos ⟨hc1, hc2, hc3, hc4⟩, hcd]
    · have hval : y1_div_values (r :: rs) code year =
          y1_div_values rs code year := by
        simp only [y1_div_values, List.filterMap_cons]
        rw [if_neg hcond]
      rw [hval]
      congr 1
      rw [dividend_step_apply, if_neg hcond]

theorem foldl_omax_some (xs : List ℚ) :
    ∀ x : ℚ, xs.foldl omax (some x) = some (xs.foldl max x) := by
  induction xs with
  | nil => intro x; rfl
  | cons y ys ih =>
    intro x
    rw [List.foldl_cons, List.foldl_cons]
    have : omax (some x) y = some (max x y) := rfl
    rw [this, ih]

theorem foldl_omax_none (l : List ℚ) : l.foldl omax none = list_max l := by
  cases l with
  | nil => rfl
  | cons x xs =>
    rw [List.foldl_cons, list_max]
    have : omax none x = some x := rfl
    rw [this, foldl_omax_some]

/-- The dividend lookup built by `build_lookups_from_metrics` holds the
maximum observed `Y1` cash dividend for each (code, year) key. -/
theorem build_lookups_dividend_max (rows : List LedgerRow)
    (code : String) (year : Int) :
    (build_lookups rows).dividend code year =
      list_max (y1_div_values rows code year) := by
  rw [build_lookups, dividend_foldl rows emptyLookups code year]
  exact foldl_omax_none _

/-- One row of the dividend DataFrame as seen by the fallback path of
`get_cash_div_sum` (schema with both optional dedup columns `配息日`
and `季別` present). -/
structure DivRow where
  code : String
  year : Int
  quarter : String
  pay_date : String
  cash : Value
  deriving DecidableEq, Repr

/-- The `drop_duplicates` subset used by `get_cash_div_sum`:
`[code_col, year_col] + [配息日, 季別] + [cash_div_col]`. -/
def div_dedup_key (r : DivRow) : String × Int × String × String × Value :=
  (r.code, r.year, r.pay_date, r.quarter, r.cash)

/-- `DataFrame.drop_duplicates`: keep the first row of every distinct
dedup key, preserving order (`seen` accumulates the keys already kept). -/
def dedup_rows_aux (seen : List (String × Int × String × String × Value)) :
    List DivRow → List DivRow
  | [] => []
  | x :: xs =>
      if div_dedup_key x ∈ seen then dedup_rows_aux seen xs
      else x :: dedup_rows_aux (div_dedup_key x :: seen) xs

def dedup_rows (l : List DivRow) : List DivRow := dedup_rows_aux [] l

/-- `get_cash_div_sum` from `MetricCalculator.calculate`: with
`use_precomputed` the precomputed dividend lookup is consulted directly;
otherwise the per-(code, year) dividend rows are parsed, the absent ones
dropped, exact duplicates removed, and the remaining values summed and
rounded (absent when no valid row remains). -/
def get_cash_div_sum (use_precomputed : Bool)
    (dividend_lookup : String → Int → Value) (div_df : List DivRow)
    (code : String) (year : Int) : Value :=
  if use_precomputed then dividend_lookup code year
  else
    let div_rows := div_df.filter fun r => r.code = code ∧ r.year = year
    let valid_divs := div_rows.filter fun r => r.cash.isSome
    let deduped := dedup_rows valid_divs
    if deduped.isEmpty then none
    else some (round2 (deduped.map (fun r => r.cash.getD 0)).sum)

theorem dedup_rows_aux_eq_self (l : List DivRow) :
    ∀ (seen : List (String × Int × String × String × Value)),
    (∀ r ∈ l, div_dedup_key r ∉ seen) →
    l.Pairwise (fun a b => div_dedup_key a ≠ div_dedup_key b) →
    dedup_rows_aux seen l = l := by
  induction l with
  | nil => intro seen _ _; rfl
  | cons x xs ih =>
    intro seen hseen hpw
    rw [List.pairwise_cons] at hpw
    rw [dedup_rows_aux, if_neg (hseen x (List.mem_cons_self x xs))]
    congr 1
    apply ih
    · intro r hr
      simp only [List.mem_cons]
      rintro (hk | hk)
      · exact (hpw.1 r hr) hk.symm
      · exact hseen r (List.mem_cons_of_mem x hr) hk
    · exact hpw.2

theorem dedup_rows_eq_self (l : List DivRow)
    (h : l.Pairwise (fun a b => div_dedup_key a ≠ div_dedup_key b)) :
    dedup_rows l = l :=
  dedup_rows_aux_eq_self l [] (by intro r _ hk; exact absurd hk (List.not_mem_nil _)) h

/-- Two dividend rows for the same (code, year) with distinct values, as
they reach the fallback path of `get_cash_div_sum`. -/
def c1_fallback_rows : List DivRow :=
  [⟨"A", 113, "Y1", "", some 5⟩, ⟨"A", 113, "Y1", "", some 3⟩]

/-- Two `Y1` ledger rows for the same (code, year) with distinct values,
as they reach `build_lookups_from_metrics`. -/
def c1_ledger_rows : List LedgerRow :=
  [⟨"A", 113, "Y1", none, none, none, some 5⟩,
   ⟨"A", 113, "Y1", none, none, none, some 3⟩]

/-- C1 counterexample: on the DataFrame fallback path, two dividend rows
for (A, 113) with values 5.0 and 3.0 produce the per-year cash-dividend
field 8.0 — the rounded sum — which is not the maximum 5.0, refuting the
claim that both paths yield the maximum and never the sum. -/
theorem C1_counterexample :
    get_cash_div_sum false (fun _ _ => none) c1_fallback_rows "A" 113 = some 8 ∧
    get_cash_div_sum false (fun _ _ => none) c1_fallback_rows "A" 113 ≠
      list_max [(5 : ℚ), 3] := by
  have hval : get_cash_div_sum false (fun _ _ => none) c1_fallback_rows "A" 113 =
      some (round2 (5 + (3 + 0))) := rfl
  have h8 : get_cash_div_sum false (fun _ _ => none) c1_fallback_rows "A" 113 =
      some 8 := by rw [hval]; norm_num [round2, round_eq]
  refine ⟨h8, ?_⟩
  rw [h8]
  have : list_max [(5 : ℚ), 3] = some 5 := by decide
  rw [this]
  intro habs
  have : (8 : ℚ) = 5 := Option.some_injective _ habs
  norm_num at this

/-- C1 (amended): under the precomputed-lookup path the annual cash
dividend for a (code, year) key is the maximum observed value among its
`Y1` rows, and the report field read with `use_precomputed` is exactly
that lookup value; under the DataFrame fallback path, however, the field
is the rounded **sum** of the surviving dividend rows once exact
duplicate rows (same code, year, pay date, period and value) have been
dropped — so duplicate re-filings with equal values collapse, but
distinct values for the same (code, year) are added, not maxed. -/
theorem C1_dividend_dedup (rows : List LedgerRow) (divdf : List DivRow)
    (dl : String → Int → Value) (code : String) (year : Int) :
    (build_lookups rows).dividend code year =
      list_max (y1_div_values rows code year) ∧
    get_cash_div_sum true dl divdf code year = dl code year ∧
    (((divdf.filter fun r => r.code = code ∧ r.year = year).filter
        fun r => r.cash.isSome).Pairwise
          (fun a b => div_dedup_key a ≠ div_dedup_key b) →
      ((divdf.filter fun r => r.code = code ∧ r.year = year).filter
        fun r => r.cash.isSome) ≠ [] →
      get_cash_div_sum false dl divdf code year =
        some (round2 ((((divdf.filter fun r => r.code = code ∧ r.year = year).filter
          fun r => r.cash.isSome).map fun r => r.cash.getD 0).sum))) := by
  refine ⟨build_lookups_dividend_max rows code year, rfl, ?_⟩
  intro hpw hne
  simp only [get_cash_div_sum]
  rw [if_neg (by simp)]
  rw [dedup_rows_eq_self _ hpw]
  rw [if_neg (by
    intro habs
    exact hne (List.isEmpty_iff.mp habs))]

/-- C1 witness: with values 5.0 and 3.0 for the same (code, year), the
precomputed lookup yields the maximum 5.0 while the fallback path yields
the sum 8.0. -/
theorem C1_dividend_dedup_witness :
    (build_lookups c1_ledger_rows).dividend "A" 113 = some 5 ∧
    get_cash_div_sum false (fun _ _ => none) c1_fallback_rows "A" 113 = some 8 := by
  have h := C1_dividend_dedup c1_ledger_rows c1_fallback_rows
    (fun _ _ => none) "A" 113
  constructor
  · rw [h.1]; decide
  · rw [h.2.2 (by decide) (by decide)]
    have hred : ((((c1_fallback_rows.filter fun r => r.code = "A" ∧ r.year = 113).filter
        fun r => r.cash.isSome).map fun r => r.cash.getD 0).sum) = 5 + (3 + 0) := rfl
    rw [hred]
    norm_num [round2, round_eq]

/-! ### The long-ledger builder (`MetricsPrecomputer.precompute`) -/

/-- Pandas `merge(..., on=["code", "year", "quarter"], how="outer")`,
specialised to ledger-shaped rows: every left row is paired with every
key-matching right row (`combine` grafts the right table's column onto
the left row); a left row without a match keeps its absent columns; right
rows whose key never occurs on the left are appended as they are (their
left-table columns are already absent). -/
def outer_merge (combine : LedgerRow → LedgerRow → LedgerRow)
    (L R : List LedgerRow) : List LedgerRow :=
  (L.flatMap fun l =>
    let ms := R.filter fun r => rkey r = rkey l
    if ms.isEmpty then [l] else ms.map (combine l)) ++
  (R.filter fun r => ¬ L.any fun l => rkey l = rkey r)

/-- `result["quarter"].map({"Q1": 1, "Q2": 2, "Q3": 3, "Q4": 4})`:
the `Y1` tag maps to NaN (`none`). -/
def quarter_order : String → Option Nat := fun q =>
  if q = "Q1" then some 1
  else if q = "Q2" then some 2
  else if q = "Q3" then some 3
  else if q = "Q4" then some 4
  else none

/-- Sort key of `precompute`: code ascending, year descending,
quarter ordinal descending with the NaN of `Y1` placed last. -/
def ledger_lt (a b : LedgerRow) : Bool :=
  if a.code ≠ b.code then decide (a.code < b.code)
  else if a.year ≠ b.year then decide (b.year < a.year)
  else
    match quarter_order a.quarter, quarter_order b.quarter with
    | some x, some y => decide (y < x)
    | some _, none => true
    | none, some _ => false
    | none, none => false

def insert_ledger (x : LedgerRow) : List LedgerRow → List LedgerRow
  | [] => [x]
  | y :: ys => if ledger_lt y x then y :: insert_ledger x ys else x :: y :: ys

def sort_ledger : List LedgerRow → List LedgerRow
  | [] => []
  | x :: xs => insert_ledger x (sort_ledger xs)

/-- `MetricsPrecomputer.precompute`, lines 201–223: outer-merge the three
loaded source tables on (code, year, quarter), restrict to the valid
security universe when one is available, sort, and keep the seven ledger
columns. -/
def precompute_ledger (eps_df equity_df dividend_df : List LedgerRow)
    (valid_codes : List String) : List LedgerRow :=
  let result1 := outer_merge (fun l r => { l with equity := r.equity })
    eps_df equity_df
  let result2 := outer_merge (fun l r => { l with cash_dividend := r.cash_dividend })
    result1 dividend_df
  let result3 := if valid_codes.isEmpty then result2
    else result2.filter fun r => valid_codes.contains r.code
  sort_ledger result3

/-- Number of ledger rows carrying a given (code, year, quarter) key. -/
def count_key (l : List LedgerRow) (k : String × Int × String) : ℕ :=
  (l.filter fun r => rkey r = k).length

theorem count_key_append (A B : List LedgerRow) (k : String × Int × String) :
    count_key (A ++ B) k = count_key A k + count_key B k := by
  simp [count_key, List.filter_append]

theorem count_key_eq_zero {L : List LedgerRow} {k : String × Int × String} :
    count_key L k = 0 ↔ ∀ l ∈ L, rkey l ≠ k := by
  simp [count_key, List.length_eq_zero, List.filter_eq_nil_iff]

theorem insert_ledger_perm (x : LedgerRow) (l : List LedgerRow) :
    (insert_ledger x l).Perm (x :: l) := by
  induction l with
  | nil => exact List.Perm.refl _
  | cons y ys ih =>
    rw [insert_ledger]
    by_cases h : ledger_lt y x
    · rw [if_pos h]
      exact (ih.cons y).trans (List.Perm.swap x y ys)
    · rw [if_neg h]

theorem sort_ledger_perm (l : List LedgerRow) : (sort_ledger l).Perm l := by
  induction l with
  | nil => exact List.Perm.refl _
  | cons x xs ih =>
    rw [sort_ledger]
    exact (insert_ledger_perm x (sort_ledger xs)).trans (ih.cons x)

theorem count_key_of_perm {A B : List LedgerRow} (h : A.Perm B)
    (k : String × Int × String) : count_key A k = count_key B k := by
  unfold count_key
  exact (h.filter _).length_eq

theorem count_key_cons (x : LedgerRow) (l : List LedgerRow)
    (k : String × Int × String) :
    count_key (x :: l) k = (if rkey x = k then 1 else 0) + count_key l k := by
  by_cases h : rkey x = k <;>
    simp [count_key, List.filter_cons, h, Nat.add_comm]

theorem count_key_all_eq {rows : List LedgerRow} {j k : String × Int × String}
    (h : ∀ r ∈ rows, rkey r = j) :
    count_key rows k = if j = k then rows.length else 0 := by
  induction rows with
  | nil => simp [count_key]
  | cons r rs ih =>
    rw [count_key_cons, ih (fun x hx => h x (List.mem_cons_of_mem r hx)),
      h r (List.mem_cons_self r rs)]
    by_cases hj : j = k <;> simp [hj, List.length_cons, Nat.add_comm]

theorem count_key_filter_le (p : LedgerRow → Bool) (l : List LedgerRow)
    (k : String × Int × String) :
    count_key (l.filter p) k ≤ count_key l k :=
  ((List.filter_sublist l).filter _).length_le

theorem count_key_flatMap (combine : LedgerRow → LedgerRow → LedgerRow)
    (hcomb : ∀ l r, rkey (combine l r) = rkey l)
    (L R : List LedgerRow) (k : String × Int × String) :
    count_key (L.flatMap fun l =>
      let ms := R.filter fun r => rkey r = rkey l
      if ms.isEmpty then [l] else ms.map (combine l)) k =
    count_key L k * (if count_key R k = 0 then 1 else count_key R k) := by
  induction L with
  | nil => simp [count_key]
  | cons l L' ih =>
    rw [List.flatMap_cons, count_key_append, ih, count_key_cons]
    have hall : ∀ r ∈ (let ms := R.filter fun r => rkey r = rkey l
        if ms.isEmpty then [l] else ms.map (combine l)), rkey r = rkey l := by
      intro r hr
      dsimp only at hr
      by_cases hms : (R.filter fun r => rkey r = rkey l).isEmpty
      · rw [if_pos hms] at hr
        rw [List.mem_singleton.mp hr]
      · rw [if_neg hms] at hr
        obtain ⟨r', _, hr'⟩ := List.mem_map.mp hr
        rw [← hr', hcomb]
    rw [count_key_all_eq hall]
    have hlen : (let ms := R.filter fun r => rkey r = rkey l
        if ms.isEmpty then [l] else ms.map (combine l)).length =
        if count_key R (rkey l) = 0 then 1 else count_key R (rkey l) := by
      dsimp only
      by_cases hms : (R.filter fun r => rkey r = rkey l).isEmpty
      · rw [if_pos hms]
        have : count_key R (rkey l) = 0 := by
          simp only [count_key, List.length_eq_zero]
          exact List.isEmpty_iff.mp hms
        rw [if_pos this]
        rfl
      · rw [if_neg hms, List.length_map]
        have : count_key R (rkey l) ≠ 0 := by
          simp only [count_key, ne_eq, List.length_eq_zero]
          intro habs
          exact hms (List.isEmpty_iff.mpr habs)
        rw [if_neg this]
        rfl
    rw [hlen]
    by_cases hk : rkey l = k
    · simp only [hk, if_pos rfl, if_true]
      ring
    · simp only [hk, if_neg hk, if_false]
      ring

theorem count_key_right_only (L R : List LedgerRow) (k : String × Int × String) :
    count_key (R.filter fun r => ¬ L.any fun l => rkey l = rkey r) k =
      if count_key L k = 0 then count_key R k else 0 := by
  induction R with
  | nil =>
    simp only [List.filter_nil, count_key, List.length_nil]
    rw [ite_self]
  | cons r R' ih =>
    rw [List.filter_cons]
    by_cases hk : rkey r = k
    · by_cases hL : count_key L k = 0
      · have hany : ¬ (L.any fun l => rkey l = rkey r) = true := by
          simp only [List.any_eq_true, decide_eq_true_eq, not_exists]
          intro l
          rintro ⟨hl, hkey⟩
          exact (count_key_eq_zero.mp hL l hl) (hkey.trans hk)
        rw [if_pos (by simpa using hany), count_key_cons, count_key_cons, ih,
          if_pos hL, if_pos hL]
      · have hex : ∃ l ∈ L, rkey l = rkey r := by
          by_contra habs
          push_neg at habs
          exact hL (count_key_eq_zero.mpr (by
            intro l hl
            rw [← hk] at *
            exact habs l hl))
        have hany : (L.any fun l => rkey l = rkey r) = true := by
          simp only [List.any_eq_true, decide_eq_true_eq]
          exact hex
        rw [if_neg (by simp [hany]), ih, if_neg hL, if_neg hL]
    · by_cases hany : (L.any fun l => rkey l = rkey r) = true
      · rw [if_neg (by simp [hany]), ih]
        by_cases hL : count_key L k = 0
        · rw [if_pos hL, if_pos hL, count_key_cons, if_neg hk, Nat.zero_add]
        · rw [if_neg hL, if_neg hL]
      · rw [if_pos (by simpa using hany), count_key_cons, if_neg hk,
          Nat.zero_add, ih]
        by_cases hL : count_key L k = 0
        · rw [if_pos hL, if_pos hL, count_key_cons, if_neg hk, Nat.zero_add]
        · rw [if_neg hL, if_neg hL]

/-- The key-multiplicity law of the pandas outer merge. -/
theorem count_key_outer_merge (combine : LedgerRow → LedgerRow → LedgerRow)
    (hcomb : ∀ l r, rkey (combine l r) = rkey l)
    (L R : List LedgerRow) (k : String × Int × String) :
    count_key (outer_merge combine L R) k =
      count_key L k * (if count_key R k = 0 then 1 else count_key R k) +
      (if count_key L k = 0 then count_key R k else 0) := by
  rw [outer_merge, count_key_append, count_key_flatMap combine hcomb,
    count_key_right_only]

theorem outer_merge_unique (combine : LedgerRow → LedgerRow → LedgerRow)
    (hcomb : ∀ l r, rkey (combine l r) = rkey l)
    {L R : List LedgerRow}
    (hL : ∀ k, count_key L k ≤ 1) (hR : ∀ k, count_key R k ≤ 1) :
    ∀ k, count_key (outer_merge combine L R) k ≤ 1 := by
  intro k
  rw [count_key_outer_merge combine hcomb]
  have hLk := hL k
  have hRk := hR k
  rcases Nat.le_one_iff_eq_zero_or_eq_one.mp hLk with h | h <;>
    rw [h] <;> simp <;> first | omega | (split_ifs <;> omega)

theorem count_key_singleton (r : LedgerRow) (k : String × Int × String) :
    count_key [r] k ≤ 1 := by
  rw [count_key_cons]
  by_cases h : rkey r = k <;> simp [h, count_key]

/-- An income-statement table containing the same (code, year, quarter)
row twice, with empty balance-sheet and dividend tables. -/
def c2_dup_rows : List LedgerRow :=
  [⟨"A", 113, "Q1", none, none, none, none⟩,
   ⟨"A", 113, "Q1", none, none, none, none⟩]

/-- C2 counterexample: `precompute` performs no deduplication, so an
input containing a duplicated (A, 113, Q1) row within the
income-statement source yields a ledger in which that key occurs twice,
refuting the claim that every (code, year, period) triple occurs at most
once for every combination of input tables. -/
theorem C2_counterexample :
    count_key (precompute_ledger c2_dup_rows [] [] []) ("A", 113, "Q1") = 2 ∧
    ¬ (∀ k, count_key (precompute_ledger c2_dup_rows [] [] []) k ≤ 1) := by
  have h2 : count_key (precompute_ledger c2_dup_rows [] [] []) ("A", 113, "Q1") = 2 := by
    decide
  refine ⟨h2, fun h => ?_⟩
  have := h ("A", 113, "Q1")
  omega

/-- C2 (amended): after `MetricsPrecomputer.precompute`, every
(code, year, period) triple occurs in at most one ledger row **provided
each of the three input tables itself contains at most one row per
(code, year, period) key**; duplicate keys within a single source are
not collapsed by the builder and survive into the ledger (duplicates
are only reconciled later, at lookup-construction time). -/
theorem C2_ledger_key_unique (eps_df equity_df dividend_df : List LedgerRow)
    (valid_codes : List String)
    (h1 : ∀ k, count_key eps_df k ≤ 1)
    (h2 : ∀ k, count_key equity_df k ≤ 1)
    (h3 : ∀ k, count_key dividend_df k ≤ 1) :
    ∀ k, count_key (precompute_ledger eps_df equity_df dividend_df valid_codes) k ≤ 1 := by
  intro k
  have hm1 : ∀ k, count_key (outer_merge (fun l r => { l with equity := r.equity })
      eps_df equity_df) k ≤ 1 :=
    outer_merge_unique (fun l r => { l with equity := r.equity })
      (fun _ _ => rfl) h1 h2
  have hm2 : ∀ k, count_key (outer_merge (fun l r => { l with cash_dividend := r.cash_dividend })
      (outer_merge (fun l r => { l with equity := r.equity }) eps_df equity_df)
      dividend_df) k ≤ 1 :=
    outer_merge_unique (fun l r => { l with cash_dividend := r.cash_dividend })
      (fun _ _ => rfl) hm1 h3
  simp only [precompute_ledger]
  rw [count_key_of_perm (sort_ledger_perm _)]
  by_cases hv : valid_codes.isEmpty
  · rw [if_pos hv]
    exact hm2 k
  · rw [if_neg hv]
    exact le_trans (count_key_filter_le _ _ _) (hm2 k)

/-- C2 witness: one key-unique row per source yields a ledger with at
most one row for the merged key. -/
theorem C2_ledger_key_unique_witness :
    count_key (precompute_ledger
      [⟨"A", 113, "Q4", some 1, none, none, none⟩]
      [⟨"A", 113, "Q4", none, none, some 2, none⟩]
      [] []) ("A", 113, "Q4") ≤ 1 := by
  have h := C2_ledger_key_unique
    [⟨"A", 113, "Q4", some 1, none, none, none⟩]
    [⟨"A", 113, "Q4", none, none, some 2, none⟩]
    [] []
    (fun k => count_key_singleton _ k)
    (fun k => count_key_singleton _ k)
    (fun k => by simp [count_key])
  exact h ("A", 113, "Q4")

/-! ### MetricCalculator -/

/-- A season tag `f"{y}{q}"`, embedded as the (year, quarter) pair the
code recovers by slicing `s[:3]` / `s[3:]` (exact for 3-digit ROC years). -/
abbrev Season := Int × String

/-- `MetricCalculator.calc_avg_equity`: beginning balance is the prior
year's `Q4` equity, ending balance the current year's `Q4` equity; the
mean of whichever of the two is present, absent when neither is. -/
def calc_avg_equity (equity_lookup : String → Int → String → Value)
    (code : String) (year : Int) : Value :=
  let begin_equity := equity_lookup code (year - 1) "Q4"
  let end_equity := equity_lookup code year "Q4"
  match begin_equity, end_equity with
  | some b, some e => some ((b + e) / 2)
  | none, some e => some e
  | some b, none => some b
  | none, none => none

/-- The per-year ROE expression of `MetricCalculator.calculate`:
`round(profit / avg_equity * 100, 2)` when profit and average equity are
present and the average equity is nonzero, absent otherwise. -/
def roe_for (equity_lookup : String → Int → String → Value)
    (profit_lookup : String → Int → Value) (code : String) (year : Int) : Value :=
  match profit_lookup code year, calc_avg_equity equity_lookup code year with
  | some p, some a => if a ≠ 0 then some (round2 (p / a * 100)) else none
  | _, none => none
  | none, _ => none

/-- The per-year dividend-yield expression of `MetricCalculator.calculate`:
`round(cash_div / price * 100, 2)` when both operands are present and the
price is nonzero, absent otherwise. -/
def div_yield_of (cash_div price : Value) : Value :=
  match cash_div, price with
  | some c, some p => if p ≠ 0 then some (round2 (c / p * 100)) else none
  | _, none => none
  | none, _ => none

/-- The per-year payout-ratio expression of `MetricCalculator.calculate`:
`round(cash_div / annual_eps * 100, 2)` when both operands are present
and the annual EPS is nonzero, absent otherwise. -/
def payout_ratio_of (cash_div annual_eps : Value) : Value :=
  match cash_div, annual_eps with
  | some c, some e => if e ≠ 0 then some (round2 (c / e * 100)) else none
  | _, none => none
  | none, _ => none

/-- `MetricCalculator.calc_eps_diff_rate`: year-over-year cumulative EPS
difference rate against the same quarter one fiscal year earlier. -/
def calc_eps_diff_rate (eps_lookup : String → Int → String → Value)
    (code : String) (y : Int) (q : String) : Value :=
  match eps_lookup code y q, eps_lookup code (y - 1) q with
  | some n, some p => if p ≠ 0 then some (round2 ((n - p) / |p| * 100)) else none
  | _, none => none
  | none, _ => none

/-- The body of the loop of `MetricCalculator.calc_single_quarter_eps`
for one adjacent (previous, current) pair of the season sequence. -/
def single_quarter_step (eps_lookup : String → Int → String → Value)
    (code : String) (p c : Season) : Value :=
  if c.2 = "Q1" then eps_lookup code c.1 c.2
  else if c.1 = p.1 then
    match eps_lookup code c.1 c.2, eps_lookup code p.1 p.2 with
    | some ce, some pe => some (ce - pe)
    | _, none => none
    | none, _ => none
  else none

/-- `MetricCalculator.calc_single_quarter_eps`: one backed-out
single-quarter value per season after the first of the sequence. -/
def calc_single_quarter_eps (eps_lookup : String → Int → String → Value)
    (code : String) : List Season → List Value
  | [] => []
  | [_] => []
  | p :: c :: rest =>
      single_quarter_step eps_lookup code p c ::
        calc_single_quarter_eps eps_lookup code (c :: rest)

/-- `avg_last_n` from `MetricCalculator.calculate`: keep the first `n`
entries, drop the absent ones, round the mean to 2 decimals; absent when
nothing remains. -/
def avg_last_n (lst : List Value) (n : ℕ) : Value :=
  let vals := (lst.take n).filterMap id
  if vals.isEmpty then none
  else some (round2 (vals.sum / vals.length))

/-- C4: the average equity used for ROE is the arithmetic mean of the
prior-year `Q4` and current-year `Q4` equity when both are present, the
single present one when exactly one is present; ROE is absent when
neither is present, and equals `round(profit / avg_equity * 100, 2)`
when average equity is present and nonzero and annual profit present. -/
theorem C4_avg_equity_roe (el : String → Int → String → Value)
    (pl : String → Int → Value) (code : String) (y : Int) :
    (∀ b e : ℚ, el code (y - 1) "Q4" = some b → el code y "Q4" = some e →
      calc_avg_equity el code y = some ((b + e) / 2)) ∧
    (∀ e : ℚ, el code (y - 1) "Q4" = none → el code y "Q4" = some e →
      calc_avg_equity el code y = some e) ∧
    (∀ b : ℚ, el code (y - 1) "Q4" = some b → el code y "Q4" = none →
      calc_avg_equity el code y = some b) ∧
    (el code (y - 1) "Q4" = none → el code y "Q4" = none →
      calc_avg_equity el code y = none ∧ roe_for el pl code y = none) ∧
    (∀ a p : ℚ, calc_avg_equity el code y = some a → a ≠ 0 →
      pl code y = some p →
      roe_for el pl code y = some (round2 (p / a * 100))) := by
  refine ⟨?_, ?_, ?_, ?_, ?_⟩
  · intro b e hb he
    simp [calc_avg_equity, hb, he]
  · intro e hb he
    simp [calc_avg_equity, hb, he]
  · intro b hb he
    simp [calc_avg_equity, hb, he]
  · intro hb he
    have havg : calc_avg_equity el code y = none := by
      simp [calc_avg_equity, hb, he]
    refine ⟨havg, ?_⟩
    rw [roe_for, havg]
    cases pl code y <;> rfl
  · intro a p havg hne hp
    rw [roe_for, havg, hp]
    simp [hne]

/-- Equity lookup of the spec's average-equity example: prior-year-end
equity 100, current-year-end equity 200. -/
def c4_equity_lookup : String → Int → String → Value := fun c y q =>
  if c = "A" ∧ y = 112 ∧ q = "Q4" then some 100
  else if c = "A" ∧ y = 113 ∧ q = "Q4" then some 200
  else none

/-- Profit lookup of the spec's average-equity example: profit 30. -/
def c4_profit_lookup : String → Int → Value := fun c y =>
  if c = "A" ∧ y = 113 then some 30 else none

/-- C4 witness: equities 100 and 200 average to 150 and profit 30 gives
ROE 20.0. -/
theorem C4_avg_equity_roe_witness :
    calc_avg_equity c4_equity_lookup "A" 113 = some 150 ∧
    roe_for c4_equity_lookup c4_profit_lookup "A" 113 = some 20 := by
  have h := C4_avg_equity_roe c4_equity_lookup c4_profit_lookup "A" 113
  have havg : calc_avg_equity c4_equity_lookup "A" 113 = some ((100 + 200) / 2) :=
    h.1 100 200 rfl rfl
  have h150 : calc_avg_equity c4_equity_lookup "A" 113 = some 150 := by
    rw [havg]; norm_num
  refine ⟨h150, ?_⟩
  have hroe := h.2.2.2.2 150 30 h150 (by norm_num) rfl
  rw [hroe]
  norm_num [round2, round_eq]

/-- C8: every derived ratio (dividend yield, ROE, payout ratio,
year-over-year EPS difference rate) is absent when an operand is absent
or its divisor is zero — in particular dividend 2.0 with price 0 gives an
absent yield — and every present result is the 2-decimal rounding of its
formula. -/
theorem C8_ratio_edge_policy (el : String → Int → String → Value)
    (pl : String → Int → Value) (code : String) (y : Int) (q : String) :
    (∀ p, div_yield_of none p = none) ∧
    (∀ c, div_yield_of c none = none) ∧
    (∀ c : ℚ, div_yield_of (some c) (some 0) = none) ∧
    (∀ c p r : ℚ, div_yield_of (some c) (some p) = some r →
      p ≠ 0 ∧ r = round2 (c / p * 100)) ∧
    div_yield_of (some 2) (some 0) = none ∧
    (∀ e, payout_ratio_of none e = none) ∧
    (∀ c, payout_ratio_of c none = none) ∧
    (∀ c : ℚ, payout_ratio_of (some c) (some 0) = none) ∧
    (∀ c e r : ℚ, payout_ratio_of (some c) (some e) = some r →
      e ≠ 0 ∧ r = round2 (c / e * 100)) ∧
    (pl code y = none → roe_for el pl code y = none) ∧
    (calc_avg_equity el code y = none → roe_for el pl code y = none) ∧
    (calc_avg_equity el code y = some 0 → roe_for el pl code y = none) ∧
    (∀ p a r : ℚ, pl code y = some p → calc_avg_equity el code y = some a →
      roe_for el pl code y = some r → a ≠ 0 ∧ r = round2 (p / a * 100)) ∧
    (el code y q = none → calc_eps_diff_rate el code y q = none) ∧
    (el code (y - 1) q = none → calc_eps_diff_rate el code y q = none) ∧
    (el code (y - 1) q = some 0 → calc_eps_diff_rate el code y q = none) ∧
    (∀ n p r : ℚ, el code y q = some n → el code (y - 1) q = some p →
      calc_eps_diff_rate el code y q = some r →
      p ≠ 0 ∧ r = round2 ((n - p) / |p| * 100)) := by
  refine ⟨?_, ?_, ?_, ?_, ?_, ?_, ?_, ?_, ?_, ?_, ?_, ?_, ?_, ?_, ?_, ?_, ?_⟩
  · intro p; cases p <;> rfl
  · intro c; cases c <;> rfl
  · intro c; simp [div_yield_of]
  · intro c p r h
    rw [div_yield_of] at h
    by_cases hp : p = 0
    · rw [if_neg (by simp [hp])] at h
      exact absurd h (by simp)
    · rw [if_pos hp] at h
      exact ⟨hp, (Option.some_injective _ h).symm⟩
  · simp [div_yield_of]
  · intro e; cases e <;> rfl
  · intro c; cases c <;> rfl
  · intro c; simp [payout_ratio_of]
  · intro c e r h
    rw [payout_ratio_of] at h
    by_cases he : e = 0
    · rw [if_neg (by simp [he])] at h
      exact absurd h (by simp)
    · rw [if_pos he] at h
      exact ⟨he, (Option.some_injective _ h).symm⟩
  · intro hp
    rw [roe_for, hp]
    cases calc_avg_equity el code y <;> rfl
  · intro ha
    rw [roe_for, ha]
    cases pl code y <;> rfl
  · intro ha
    rw [roe_for, ha]
    cases pl code y <;> simp
  · intro p a r hp ha hr
    rw [roe_for, hp, ha] at hr
    dsimp only at hr
    by_cases hane : a = 0
    · rw [if_neg (by simp [hane])] at hr
      exact absurd hr (by simp)
    · rw [if_pos hane] at hr
      exact ⟨hane, (Option.some_injective _ hr).symm⟩
  · intro hn
    rw [calc_eps_diff_rate, hn]
    cases el code (y - 1) q <;> rfl
  · intro hp
    rw [calc_eps_diff_rate, hp]
    cases el code y q <;> rfl
  · intro hp
    rw [calc_eps_diff_rate, hp]
    cases el code y q <;> simp
  · intro n p r hn hp hr
    rw [calc_eps_diff_rate, hn, hp] at hr
    dsimp only at hr
    by_cases hpne : p = 0
    · rw [if_neg (by simp [hpne])] at hr
      exact absurd hr (by simp)
    · rw [if_pos hpne] at hr
      exact ⟨hpne, (Option.some_injective _ hr).symm⟩

/-- C8 witness: dividend 2.0 with zero price gives an absent yield, and a
present yield at price 4 carries the rounded formula value. -/
theorem C8_ratio_edge_policy_witness :
    div_yield_of (some 2) (some 0) = none ∧
    ((4 : ℚ) ≠ 0 ∧ round2 ((2 : ℚ) / 4 * 100) = round2 ((2 : ℚ) / 4 * 100)) := by
  have h := C8_ratio_edge_policy (fun _ _ _ => none) (fun _ _ => none) "A" 113 "Q2"
  refine ⟨h.2.2.2.2.1, ?_⟩
  exact h.2.2.2.1 2 4 (round2 ((2 : ℚ) / 4 * 100))
    (by rw [div_yield_of, if_pos (by norm_num)])

theorem csqe_length (el : String → Int → String → Value) (code : String) :
    ∀ l : List Season, (calc_single_quarter_eps el code l).length = l.length - 1
  | [] => rfl
  | [_] => rfl
  | p :: c :: rest => by
    rw [calc_single_quarter_eps, List.length_cons, csqe_length el code (c :: rest)]
    simp [Nat.succ_sub_one]

theorem csqe_get (el : String → Int → String → Value) (code : String) :
    ∀ (l : List Season) (i : ℕ) (p c : Season),
      l[i]? = some p → l[i + 1]? = some c →
      (calc_single_quarter_eps el code l)[i]? =
        some (single_quarter_step el code p c) := by
  intro l
  induction l with
  | nil => intro i p c hp _; simp at hp
  | cons x xs ih =>
    intro i p c hp hc
    cases xs with
    | nil =>
      exfalso
      rcases i with _ | j <;> simp at hc
    | cons y ys =>
      cases i with
      | zero =>
        rw [List.getElem?_cons_zero] at hp
        rw [List.getElem?_cons_succ, List.getElem?_cons_zero] at hc
        rw [calc_single_quarter_eps, List.getElem?_cons_zero,
          Option.some_inj.mp hp, Option.some_inj.mp hc]
      | succ j =>
        rw [List.getElem?_cons_succ] at hp
        rw [List.getElem?_cons_succ] at hc
        rw [calc_single_quarter_eps, List.getElem?_cons_succ]
        exact ih j p c hp hc

/-- C5: for a season sequence ordered oldest to newest, the single-quarter
EPS for each quarter after the first is the reported cumulative EPS when
the quarter tag is `Q1`; the difference of the two cumulative figures when
both are present and the two quarters share a fiscal year; and absent
when the prior cumulative figure is absent or the fiscal years differ. -/
theorem C5_single_quarter_backout (el : String → Int → String → Value)
    (code : String) (seasons : List Season) :
    (calc_single_quarter_eps el code seasons).length = seasons.length - 1 ∧
    (∀ (i : ℕ) (p c : Season), seasons[i]? = some p → seasons[i + 1]? = some c →
      ((c.2 = "Q1" →
        (calc_single_quarter_eps el code seasons)[i]? = some (el code c.1 c.2)) ∧
       (c.2 ≠ "Q1" → c.1 = p.1 → ∀ cv pv : ℚ,
        el code c.1 c.2 = some cv → el code p.1 p.2 = some pv →
        (calc_single_quarter_eps el code seasons)[i]? = some (some (cv - pv))) ∧
       (c.2 ≠ "Q1" → (el code p.1 p.2 = none ∨ c.1 ≠ p.1) →
        (calc_single_quarter_eps el code seasons)[i]? = some none))) := by
  refine ⟨csqe_length el code seasons, ?_⟩
  intro i p c hp hc
  have hstep := csqe_get el code seasons i p c hp hc
  refine ⟨?_, ?_, ?_⟩
  · intro hq1
    rw [hstep, single_quarter_step, if_pos hq1]
  · intro hq1 hy cv pv hcv hpv
    rw [hstep, single_quarter_step, if_neg hq1, if_pos hy, hcv, hpv]
  · intro hq1 habs
    rw [hstep, single_quarter_step, if_neg hq1]
    rcases habs with habs | habs
    · by_cases hy : c.1 = p.1
      · rw [if_pos hy, habs]
        cases el code c.1 c.2 <;> rfl
      · rw [if_neg hy]
    · rw [if_neg habs]

/-- Cumulative EPS of the spec's back-out example: Q1=1.0, Q2=2.5,
Q3=4.0, Q4=5.0 in year 113, with a prior-year 112 Q4 figure of 3.0. -/
def c5_eps_lookup : String → Int → String → Value := fun c y q =>
  if c = "A" ∧ y = 113 then
    if q = "Q1" then some 1
    else if q = "Q2" then some (5 / 2)
    else if q = "Q3" then some 4
    else if q = "Q4" then some 5
    else none
  else if c = "A" ∧ y = 112 ∧ q = "Q4" then some 3
  else none

def c5_seasons : List Season :=
  [(112, "Q4"), (113, "Q1"), (113, "Q2"), (113, "Q3"), (113, "Q4")]

/-- C5 witness: the cumulative sequence 1.0, 2.5, 4.0, 5.0 within one
year backs out to the single-quarter series 1.0, 1.5, 1.5, 1.0. -/
theorem C5_single_quarter_backout_witness :
    (calc_single_quarter_eps c5_eps_lookup "A" c5_seasons)[1]? =
      some (some (5 / 2 - 1)) ∧
    calc_single_quarter_eps c5_eps_lookup "A" c5_seasons =
      [some 1, some (3 / 2), some (3 / 2), some 1] := by
  have h := C5_single_quarter_backout c5_eps_lookup "A" c5_seasons
  constructor
  · exact (h.2 1 (113, "Q1") (113, "Q2") rfl rfl).2.1 (by decide) rfl
      (5 / 2) 1 rfl rfl
  · show [some ((1 : ℚ)), some ((5 / 2 : ℚ) - 1), some ((4 : ℚ) - 5 / 2),
      some ((5 : ℚ) - 4)] = [some 1, some (3 / 2), some (3 / 2), some 1]
    norm_num

/-- C6: a trailing-N-year average over a newest-first series drops the
first (most recent) entry, keeps the next N entries, drops absences, and
is the 2-decimal rounding of the mean of the survivors; absent exactly
when nothing survives. -/
theorem C6_trailing_avg (series rest : List Value) (v v' : Value) (n : ℕ) :
    (avg_last_n ((v :: rest).drop 1) n = avg_last_n ((v' :: rest).drop 1) n) ∧
    (avg_last_n (series.drop 1) n = none ↔
      ∀ x ∈ (series.drop 1).take n, x = none) ∧
    (∀ l : List ℚ, ((series.drop 1).take n).filterMap id = l → l ≠ [] →
      avg_last_n (series.drop 1) n = some (round2 (l.sum / l.length))) := by
  refine ⟨rfl, ?_, ?_⟩
  · rw [avg_last_n]
    by_cases hemp : (((series.drop 1).take n).filterMap id).isEmpty
    · simp only [hemp, if_true]
      have := List.isEmpty_iff.mp hemp
      rw [List.filterMap_eq_nil_iff] at this
      constructor
      · intro _ x hx
        exact this x hx
      · intro _; trivial
    · simp only [hemp, if_false]
      constructor
      · intro habs; exact absurd habs (by simp)
      · intro hall
        exfalso
        apply hemp
        rw [List.isEmpty_iff, List.filterMap_eq_nil_iff]
        exact hall
  · intro l hl hne
    simp only [avg_last_n]
    rw [hl, if_neg (by simpa [List.isEmpty_iff] using hne)]

/-- C6 witness: for dividend values [None, 2, 2, 2, 2] over five
newest-first years, the 3-year trailing average excludes the most recent
year and equals 2.0. -/
theorem C6_trailing_avg_witness :
    avg_last_n (([none, some 2, some 2, some 2, some 2] : List Value).drop 1) 3 =
      some 2 := by
  have h := C6_trailing_avg [none, some 2, some 2, some 2, some 2]
    [] none none 3
  have := h.2.2 [2, 2, 2] rfl (by decide)
  rw [this]
  norm_num [round2, round_eq]

/-! ### The trailing-four-quarter EPS sum -/

/-- `DEFAULT_QUARTERS = ["Q1", "Q2", "Q3", "Q4"]`. -/
def DEFAULT_QUARTERS : List String := ["Q1", "Q2", "Q3", "Q4"]

/-- `all_seasons = [f"{y}{q}" for y in years for q in reversed(quarters)]`,
newest year first, `Q4` before `Q1` within a year. -/
def all_seasons (years : List Int) (quarters : List String) : List Season :=
  years.flatMap fun y => quarters.reverse.map fun q => (y, q)

/-- The sort key `{"Q1": 1, "Q2": 2, "Q3": 3, "Q4": 4}.get(s[3:], 0)`. -/
def quarter_sort_ord (q : String) : ℕ :=
  if q = "Q1" then 1
  else if q = "Q2" then 2
  else if q = "Q3" then 3
  else if q = "Q4" then 4
  else 0

/-- Python's tuple comparison on `(int(s[:3]), quarter ordinal)`. -/
def season_key_lt (a b : Season) : Bool :=
  decide (a.1 < b.1) ||
    (decide (a.1 = b.1) && decide (quarter_sort_ord a.2 < quarter_sort_ord b.2))

def insert_season (x : Season) : List Season → List Season
  | [] => [x]
  | y :: ys => if season_key_lt y x then y :: insert_season x ys else x :: y :: ys

/-- `sorted(..., key=lambda s: (int(s[:3]), ord))`, ascending. -/
def sort_seasons : List Season → List Season
  | [] => []
  | x :: xs => insert_season x (sort_seasons xs)

/-- The `近四季EPS總合` field of `MetricCalculator.calculate`: back the
single-quarter values out of the five seasons `all_seasons[1:6]` sorted
oldest-first, sum them with `np.nansum` (absent elements count as 0) and
round, unless no single-quarter value is present at all. -/
def recent_4q_sum (eps_lookup : String → Int → String → Value) (code : String)
    (years : List Int) (quarters : List String) : Value :=
  let allS := all_seasons years quarters
  let last5 := sort_seasons ((allS.drop 1).take 5)
  let eps_4q := calc_single_quarter_eps eps_lookup code last5
  if eps_4q.any (fun e => e.isSome) then
    some (round2 ((eps_4q.map (fun e => e.getD 0)).sum))
  else none

/-- C7: with the default quarters and consecutive newest-first years, the
five seasons feeding the trailing sum sort into the prior year's Q3–Q4
followed by the current year's Q1–Q3, so the backed-out values cover the
four most recent completed quarters; the sum treats absences as zero but
is recorded absent exactly when no single-quarter value is present. -/
theorem C7_recent_4q_sum (el : String → Int → String → Value) (code : String)
    (y : Int) (rest : List Int) :
    sort_seasons (((all_seasons (y :: (y - 1) :: rest) DEFAULT_QUARTERS).drop 1).take 5) =
      [(y - 1, "Q3"), (y - 1, "Q4"), (y, "Q1"), (y, "Q2"), (y, "Q3")] ∧
    (recent_4q_sum el code (y :: (y - 1) :: rest) DEFAULT_QUARTERS = none ↔
      ∀ v ∈ calc_single_quarter_eps el code
        [(y - 1, "Q3"), (y - 1, "Q4"), (y, "Q1"), (y, "Q2"), (y, "Q3")], v = none) ∧
    ((∃ v ∈ calc_single_quarter_eps el code
        [(y - 1, "Q3"), (y - 1, "Q4"), (y, "Q1"), (y, "Q2"), (y, "Q3")], v.isSome) →
      recent_4q_sum el code (y :: (y - 1) :: rest) DEFAULT_QUARTERS =
        some (round2 (((calc_single_quarter_eps el code
          [(y - 1, "Q3"), (y - 1, "Q4"), (y, "Q1"), (y, "Q2"), (y, "Q3")]).map
            (fun e => e.getD 0)).sum))) := by
  have hym : y - 1 < y := by omega
  have htake : ((all_seasons (y :: (y - 1) :: rest) DEFAULT_QUARTERS).drop 1).take 5 =
      [(y, "Q3"), (y, "Q2"), (y, "Q1"), (y - 1, "Q4"), (y - 1, "Q3")] := by
    simp [all_seasons, DEFAULT_QUARTERS]
  have hsorted : sort_seasons [(y, "Q3"), (y, "Q2"), (y, "Q1"), (y - 1, "Q4"), (y - 1, "Q3")] =
      [(y - 1, "Q3"), (y - 1, "Q4"), (y, "Q1"), (y, "Q2"), (y, "Q3")] := by
    simp [sort_seasons, insert_season, season_key_lt, quarter_sort_ord, hym,
      Int.lt_irrefl, hym.ne]
  have hfive : sort_seasons (((all_seasons (y :: (y - 1) :: rest)
      DEFAULT_QUARTERS).drop 1).take 5) =
      [(y - 1, "Q3"), (y - 1, "Q4"), (y, "Q1"), (y, "Q2"), (y, "Q3")] := by
    rw [htake]; exact hsorted
  refine ⟨hfive, ?_, ?_⟩
  · rw [recent_4q_sum]
    simp only [hfive]
    by_cases hany : (calc_single_quarter_eps el code
        [(y - 1, "Q3"), (y - 1, "Q4"), (y, "Q1"), (y, "Q2"), (y, "Q3")]).any
          (fun e => e.isSome)
    · rw [if_pos hany]
      simp only [List.any_eq_true] at hany
      obtain ⟨v, hv, hvs⟩ := hany
      constructor
      · intro habs; exact absurd habs (by simp)
      · intro hall
        rw [hall v hv] at hvs
        exact absurd hvs (by simp)
    · rw [if_neg hany]
      simp only [List.any_eq_true, not_exists, not_and] at hany
      constructor
      · intro _ v hv
        have := hany v hv
        simpa [Option.not_isSome_iff_eq_none] using this
      · intro _; rfl
  · intro hex
    rw [recent_4q_sum]
    simp only [hfive]
    rw [if_pos]
    rw [List.any_eq_true]
    obtain ⟨v, hv, hvs⟩ := hex
    exact ⟨v, hv, by simpa using hvs⟩

/-- C7 witness: with cumulative figures for 112Q3, 112Q4 and 113Q1–Q3
present, the trailing sum is the rounded nan-sum of the four backed-out
values. -/
theorem C7_recent_4q_sum_witness :
    recent_4q_sum c5_eps_lookup "A" [113, 112, 111] DEFAULT_QUARTERS =
      some (round2 (((calc_single_quarter_eps c5_eps_lookup "A"
        [(112, "Q3"), (112, "Q4"), (113, "Q1"), (113, "Q2"), (113, "Q3")]).map
          (fun e => e.getD 0)).sum)) := by
  have h := C7_recent_4q_sum c5_eps_lookup "A" 113 [111]
  have h3 := h.2.2
  norm_num at h3 ⊢
  exact h3 (some 1) (by decide) rfl

/-! ### The per-quarter EPS columns of a metric record -/

/-- Keys of the EPS-related entries of a report row: `epsQ y q` stands
for the string key `f"{y}{q}_EPS"` and `epsDiffR y q` for
`f"{y}{q}_vs_{y-1}{q}_EPS差率"` (distinct formats, hence distinct
constructors; `(y, q)` determines the string for 3-digit years). -/
inductive RowKey where
  | epsQ (y : Int) (q : String) : RowKey
  | epsDiffR (y : Int) (q : String) : RowKey
  deriving DecidableEq, Repr

/-- Python `dict` assignment `row[k] = v`: replace the binding in place
when the key exists, append it otherwise. -/
def setKey (row : List (RowKey × Value)) (k : RowKey) (v : Value) :
    List (RowKey × Value) :=
  if row.any fun p => p.1 = k then
    row.map fun p => if p.1 = k then (k, v) else p
  else row ++ [(k, v)]

/-- Python `dict` read `row.get(k)`. -/
def lookup_row (row : List (RowKey × Value)) (k : RowKey) : Option Value :=
  (row.find? fun p => p.1 = k).map fun p => p.2

/-- Lines 487–502 of `MetricCalculator.calculate`: first the eight
per-quarter EPS columns (`all_seasons[1:9]`, raw `eps_lookup` values),
then for the four most recent completed quarters (`all_seasons[1:5]`)
the current and prior-year cumulative EPS columns and the year-over-year
difference-rate column. -/
def build_eps_quarter_cols (el : String → Int → String → Value) (code : String)
    (years : List Int) (quarters : List String) : List (RowKey × Value) :=
  let allS := all_seasons years quarters
  let row1 := (((allS.drop 1).take 8).reverse).foldl
    (fun row s => setKey row (RowKey.epsQ s.1 s.2) (el code s.1 s.2)) []
  (((allS.drop 1).take 4).reverse).foldl
    (fun row s =>
      let row := setKey row (RowKey.epsQ s.1 s.2) (el code s.1 s.2)
      let row := setKey row (RowKey.epsQ (s.1 - 1) s.2) (el code (s.1 - 1) s.2)
      setKey row (RowKey.epsDiffR s.1 s.2) (calc_eps_diff_rate el code s.1 s.2))
    row1

/-- The row invariant: every `epsQ` binding holds the raw lookup value. -/
def eps_cols_ok (el : String → Int → String → Value) (code : String)
    (row : List (RowKey × Value)) : Prop :=
  ∀ (y : Int) (q : String) (v : Value), (RowKey.epsQ y q, v) ∈ row →
    v = el code y q

theorem eps_cols_ok_setKey_epsQ {el code row} (h : eps_cols_ok el code row)
    (y : Int) (q : String) :
    eps_cols_ok el code (setKey row (RowKey.epsQ y q) (el code y q)) := by
  intro y' q' v hv
  rw [setKey] at hv
  by_cases hany : (row.any fun p => p.1 = RowKey.epsQ y q)
  · rw [if_pos hany] at hv
    obtain ⟨p, hp, hpv⟩ := List.mem_map.mp hv
    by_cases hk : p.1 = RowKey.epsQ y q
    · rw [if_pos hk] at hpv
      obtain ⟨h1, h2⟩ := Prod.mk.injEq .. ▸ hpv
      cases h1
      exact h2 ▸ rfl
    · rw [if_neg hk] at hpv
      exact h y' q' v (hpv ▸ hp)
  · rw [if_neg hany] at hv
    rcases List.mem_append.mp hv with hv | hv
    · exact h y' q' v hv
    · obtain ⟨h1, h2⟩ := Prod.mk.injEq .. ▸ List.mem_singleton.mp hv
      cases h1
      exact h2 ▸ rfl

theorem eps_cols_ok_setKey_diff {el code row} (h : eps_cols_ok el code row)
    (y : Int) (q : String) (v : Value) :
    eps_cols_ok el code (setKey row (RowKey.epsDiffR y q) v) := by
  intro y' q' w hw
  rw [setKey] at hw
  by_cases hany : (row.any fun p => p.1 = RowKey.epsDiffR y q)
  · rw [if_pos hany] at hw
    obtain ⟨p, hp, hpv⟩ := List.mem_map.mp hw
    by_cases hk : p.1 = RowKey.epsDiffR y q
    · rw [if_pos hk] at hpv
      exact absurd (congrArg Prod.fst hpv).symm (by simp)
    · rw [if_neg hk] at hpv
      exact h y' q' w (hpv ▸ hp)
  · rw [if_neg hany] at hw
    rcases List.mem_append.mp hw with hw | hw
    · exact h y' q' w hw
    · exact absurd (congrArg Prod.fst (List.mem_singleton.mp hw)) (by simp)

/-- A key already bound stays bound through any `setKey`. -/
theorem key_present_setKey {row : List (RowKey × Value)} {k' : RowKey}
    (h : ∃ v, (k', v) ∈ row) (k : RowKey) (v : Value) :
    ∃ w, (k', w) ∈ setKey row k v := by
  obtain ⟨v', hv'⟩ := h
  rw [setKey]
  by_cases hany : (row.any fun p => p.1 = k)
  · rw [if_pos hany]
    by_cases hk : k' = k
    · exact ⟨v, List.mem_map.mpr ⟨(k', v'), hv', by simp [hk]⟩⟩
    · refine ⟨v', List.mem_map.mpr ⟨(k', v'), hv', ?_⟩⟩
      rw [if_neg (by simpa using hk)]
  · rw [if_neg hany]
    exact ⟨v', List.mem_append.mpr (Or.inl hv')⟩

/-- `setKey` leaves its own key bound. -/
theorem key_present_setKey_self (row : List (RowKey × Value)) (k : RowKey)
    (v : Value) : ∃ w, (k, w) ∈ setKey row k v := by
  rw [setKey]
  by_cases hany : (row.any fun p => p.1 = k)
  · rw [if_pos hany]
    rw [List.any_eq_true] at hany
    obtain ⟨p, hp, hpk⟩ := hany
    refine ⟨v, List.mem_map.mpr ⟨p, hp, ?_⟩⟩
    rw [if_pos (by simpa using hpk)]
  · rw [if_neg hany]
    exact ⟨v, List.mem_append.mpr (Or.inr (List.mem_singleton.mpr rfl))⟩

theorem fold1_ok (el : String → Int → String → Value) (code : String)
    (l : List Season) : ∀ row, eps_cols_ok el code row →
    eps_cols_ok el code (l.foldl
      (fun row s => setKey row (RowKey.epsQ s.1 s.2) (el code s.1 s.2)) row) := by
  induction l with
  | nil => intro row h; exact h
  | cons s l' ih =>
    intro row h
    rw [List.foldl_cons]
    exact ih _ (eps_cols_ok_setKey_epsQ h s.1 s.2)

theorem fold1_present (el : String → Int → String → Value) (code : String)
    (l : List Season) : ∀ (row : List (RowKey × Value)) (k : RowKey),
    ((∃ v, (k, v) ∈ row) ∨ ∃ s ∈ l, k = RowKey.epsQ s.1 s.2) →
    ∃ v, (k, v) ∈ l.foldl
      (fun row s => setKey row (RowKey.epsQ s.1 s.2) (el code s.1 s.2)) row := by
  induction l with
  | nil =>
    intro row k h
    rcases h with h | ⟨s, hs, _⟩
    · exact h
    · exact absurd hs (List.not_mem_nil s)
  | cons s l' ih =>
    intro row k h
    rw [List.foldl_cons]
    rcases h with h | ⟨t, ht, hk⟩
    · exact ih _ k (Or.inl (key_present_setKey h _ _))
    · rcases List.mem_cons.mp ht with rfl | ht'
      · exact ih _ k (Or.inl (hk ▸ key_present_setKey_self row _ _))
      · exact ih _ k (Or.inr ⟨t, ht', hk⟩)

theorem fold2_ok (el : String → Int → String → Value) (code : String)
    (l : List Season) : ∀ row, eps_cols_ok el code row →
    eps_cols_ok el code (l.foldl
      (fun row s =>
        let row := setKey row (RowKey.epsQ s.1 s.2) (el code s.1 s.2)
        let row := setKey row (RowKey.epsQ (s.1 - 1) s.2) (el code (s.1 - 1) s.2)
        setKey row (RowKey.epsDiffR s.1 s.2) (calc_eps_diff_rate el code s.1 s.2))
      row) := by
  induction l with
  | nil => intro row h; exact h
  | cons s l' ih =>
    intro row h
    rw [List.foldl_cons]
    exact ih _ (eps_cols_ok_setKey_diff
      (eps_cols_ok_setKey_epsQ (eps_cols_ok_setKey_epsQ h s.1 s.2) (s.1 - 1) s.2)
      s.1 s.2 _)

theorem fold2_present (el : String → Int → String → Value) (code : String)
    (l : List Season) : ∀ (row : List (RowKey × Value)) (k : RowKey),
    (∃ v, (k, v) ∈ row) →
    ∃ v, (k, v) ∈ l.foldl
      (fun row s =>
        let row := setKey row (RowKey.epsQ s.1 s.2) (el code s.1 s.2)
        let row := setKey row (RowKey.epsQ (s.1 - 1) s.2) (el code (s.1 - 1) s.2)
        setKey row (RowKey.epsDiffR s.1 s.2) (calc_eps_diff_rate el code s.1 s.2))
      row := by
  induction l with
  | nil => intro row k h; exact h
  | cons s l' ih =>
    intro row k h
    rw [List.foldl_cons]
    exact ih _ k (key_present_setKey (key_present_setKey (key_present_setKey h _ _) _ _) _ _)

/-- C9: each of the eight per-quarter EPS columns of a metric record
holds the raw cumulative-within-fiscal-year value read directly from
`eps_lookup` — including after the later four-quarter assignments rewrite
some of those columns — not a backed-out single-quarter figure. -/
theorem C9_eight_quarter_cols_raw (el : String → Int → String → Value)
    (code : String) (years : List Int) (quarters : List String) :
    ∀ yq ∈ ((all_seasons years quarters).drop 1).take 8,
      lookup_row (build_eps_quarter_cols el code years quarters)
        (RowKey.epsQ yq.1 yq.2) = some (el code yq.1 yq.2) := by
  intro yq hmem
  have hok0 : eps_cols_ok el code [] := by
    intro y q v hv
    exact absurd hv (List.not_mem_nil _)
  have hok1 := fold1_ok el code
    ((((all_seasons years quarters).drop 1).take 8).reverse) [] hok0
  have hok2 := fold2_ok el code
    ((((all_seasons years quarters).drop 1).take 4).reverse) _ hok1
  have hpres1 := fold1_present el code
    ((((all_seasons years quarters).drop 1).take 8).reverse) []
    (RowKey.epsQ yq.1 yq.2)
    (Or.inr ⟨yq, List.mem_reverse.mpr hmem, rfl⟩)
  have hpres2 := fold2_present el code
    ((((all_seasons years quarters).drop 1).take 4).reverse) _
    (RowKey.epsQ yq.1 yq.2) hpres1
  obtain ⟨v, hv⟩ := hpres2
  have hrow : lookup_row (build_eps_quarter_cols el code years quarters)
      (RowKey.epsQ yq.1 yq.2) =
      lookup_row ((((all_seasons years quarters).drop 1).take 4).reverse.foldl
        (fun row s =>
          let row := setKey row (RowKey.epsQ s.1 s.2) (el code s.1 s.2)
          let row := setKey row (RowKey.epsQ (s.1 - 1) s.2) (el code (s.1 - 1) s.2)
          setKey row (RowKey.epsDiffR s.1 s.2) (calc_eps_diff_rate el code s.1 s.2))
        ((((all_seasons years quarters).drop 1).take 8).reverse.foldl
          (fun row s => setKey row (RowKey.epsQ s.1 s.2) (el code s.1 s.2)) []))
        (RowKey.epsQ yq.1 yq.2) := rfl
  rw [hrow]
  set row2 := (((all_seasons years quarters).drop 1).take 4).reverse.foldl
    (fun row s =>
      let row := setKey row (RowKey.epsQ s.1 s.2) (el code s.1 s.2)
      let row := setKey row (RowKey.epsQ (s.1 - 1) s.2) (el code (s.1 - 1) s.2)
      setKey row (RowKey.epsDiffR s.1 s.2) (calc_eps_diff_rate el code s.1 s.2))
    ((((all_seasons years quarters).drop 1).take 8).reverse.foldl
      (fun row s => setKey row (RowKey.epsQ s.1 s.2) (el code s.1 s.2)) []) with hrow2
  have hfind : (row2.find? fun p => p.1 = RowKey.epsQ yq.1 yq.2).isSome := by
    rw [List.find?_isSome]
    exact ⟨(RowKey.epsQ yq.1 yq.2, v), hv, by simp⟩
  cases hf : row2.find? fun p => p.1 = RowKey.epsQ yq.1 yq.2 with
  | none => rw [hf] at hfind; exact absurd hfind (by simp)
  | some b =>
    have hbk : b.1 = RowKey.epsQ yq.1 yq.2 := by
      have := List.find?_some hf
      simpa using this
    have hbmem : b ∈ row2 := List.mem_of_find?_eq_some hf
    have hbv : b.2 = el code yq.1 yq.2 := by
      have : (RowKey.epsQ yq.1 yq.2, b.2) ∈ row2 := by
        rw [← hbk]
        exact hbmem
      exact hok2 yq.1 yq.2 b.2 this
    rw [lookup_row, hf]
    simp [hbv]

/-- C9 witness: with three requested years the column of season 113Q3 —
one of the eight — holds the raw cumulative lookup value. -/
theorem C9_eight_quarter_cols_raw_witness :
    lookup_row (build_eps_quarter_cols c5_eps_lookup "A" [113, 112, 111]
      DEFAULT_QUARTERS) (RowKey.epsQ 113 "Q3") =
      some (c5_eps_lookup "A" 113 "Q3") := by
  have h := C9_eight_quarter_cols_raw c5_eps_lookup "A" [113, 112, 111]
    DEFAULT_QUARTERS (113, "Q3") (by decide)
  exact h

/-! ### ReportAssembler.assemble — column ordering -/

/-- Column union of `pd.DataFrame(list_of_dicts)`: keys in order of
first appearance across the records. -/
def union_in_order (records : List (List String)) : List String :=
  records.foldl
    (fun acc ks => ks.foldl (fun acc k => if k ∈ acc then acc else acc ++ [k]) acc)
    []

/-- Code-point lexicographic comparison of character lists — Python's
(and Lean's) string ordering, written out so that it evaluates. -/
def char_list_lt : List Char → List Char → Bool
  | [], [] => false
  | [], _ :: _ => true
  | _ :: _, [] => false
  | a :: as, b :: bs => if a < b then true else if b < a then false else char_list_lt as bs

def str_lt (a b : String) : Bool := char_list_lt a.data b.data

/-- Python `str.endswith`, as a suffix check on the character data. -/
def str_ends_with (k suffix : String) : Bool := suffix.data.isSuffixOf k.data

def insert_str_desc (x : String) : List String → List String
  | [] => [x]
  | y :: ys => if str_lt x y then y :: insert_str_desc x ys else x :: y :: ys

/-- `sorted(year_set, reverse=True)`. -/
def sort_str_desc : List String → List String
  | [] => []
  | x :: xs => insert_str_desc x (sort_str_desc xs)

/-- First-occurrence deduplication (the `set` of collected year tags). -/
def dedup_str (l : List String) : List String :=
  l.foldl (fun acc k => if k ∈ acc then acc else acc ++ [k]) []

/-- The year tags harvested by `assemble`: `k[:3]` of every record key
ending in `EPS_年度` with at least 6 characters, sorted descending. -/
def report_years (records : List (List String)) : List String :=
  sort_str_desc (dedup_str ((records.flatMap id).filterMap fun k =>
    if str_ends_with k "EPS_年度" ∧ 6 ≤ k.length then some (k.take 3) else none))

def priority_cols : List String := ["股票代號", "股票名稱", "收盤價", "收盤日"]

def col_types : List String := ["現金股利", "殖利率", "ROE", "EPS_年度"]

/-- The literal `special_cols` list of `ReportAssembler.assemble` —
note its second entry, which no record produced by
`MetricCalculator.calculate` ever contains (the calculator writes
`近四季_vs_前年度_EPS差率` instead). -/
def special_cols : List String :=
  ["近四季EPS總合", "近四季EPS總合vs前一年度EPS差率"]

/-- The column ordering of `ReportAssembler.assemble`: identity columns,
yearly columns grouped by metric type with years descending, missing
yearly columns appended, then all other columns in first-appearance
order, then whichever `special_cols` exist in the frame. -/
def assemble_cols (records : List (List String)) : List String :=
  let cols := union_in_order records
  let years := report_years records
  let year_cols := col_types.flatMap fun t => years.map fun y => y ++ t
  let missing_cols := year_cols.filter fun c => c ∉ cols
  let cols2 := cols ++ missing_cols
  let others := cols2.filter fun c => c ∉ priority_cols ++ year_cols ++ special_cols
  let final_special := special_cols.filter fun c => c ∈ cols2
  priority_cols ++ year_cols ++ others ++ final_special

/-- The key sequence of a one-year record as `MetricCalculator.calculate`
emits it: identity fields, the per-year block, a trailing average, two
quarter-EPS columns, the trailing-four-quarter sum, and its
year-over-year difference rate (written last, under the name the
calculator actually uses). -/
def c3_record : List String :=
  ["股票代號", "股票名稱", "收盤價", "收盤日",
   "113EPS_年度", "113現金股利", "113殖利率", "113ROE",
   "近3年平均股息", "113Q3_EPS", "113Q2_EPS",
   "近四季EPS總合", "近四季_vs_前年度_EPS差率"]

/-- C3 (code bug): on a record produced by the calculator, `assemble`
pins only `近四季EPS總合` to the end — the stale name in `special_cols`
matches nothing — so the assembled table ends with the difference-rate
column followed by the sum column, the reverse of the claimed
[sum, difference] order, and the difference-rate column is not pinned at
all (it merely sits last among the "other" columns by insertion order). -/
theorem C3_last_two_columns :
    assemble_cols [c3_record] =
      ["股票代號", "股票名稱", "收盤價", "收盤日",
       "113現金股利", "113殖利率", "113ROE", "113EPS_年度",
       "近3年平均股息", "113Q3_EPS", "113Q2_EPS",
       "近四季_vs_前年度_EPS差率", "近四季EPS總合"] ∧
    (assemble_cols [c3_record]).getLast? = some "近四季EPS總合" ∧
    "近四季EPS總合vs前一年度EPS差率" ∉ c3_record := by
  refine ⟨?_, ?_, ?_⟩ <;> decide

/-! ### DataLoader — loading the year before the earliest requested one -/

/-- The year-extension common to `_load_from_precomputed` (lines 127–132)
and `_load_from_original` (lines 209–214): append the year immediately
preceding the earliest requested year unless it is already requested. -/
def extended_years : List Int → List Int
  | [] => []
  | y :: ys =>
      let earliest := ys.foldl min y
      let prev := earliest - 1
      if prev ∈ y :: ys then y :: ys else (y :: ys) ++ [prev]

/-- `DataLoader._collect_yearly_data`: concatenate the per-year extracts
that exist (a missing file contributes nothing). -/
def collect_yearly (source : Int → Option (List LedgerRow)) (years : List Int) :
    List LedgerRow :=
  years.flatMap fun yr => (source yr).getD []

/-- The three DataFrames of `DataLoader._load_from_original`:
income statement and balance sheet over the extended years, dividends
over the requested years only. -/
structure OriginalData where
  eps_df : List LedgerRow
  div_df : List LedgerRow
  bs_df : List LedgerRow

def load_from_original (eps_source div_source bs_source : Int → Option (List LedgerRow))
    (years : List Int) : OriginalData :=
  ⟨collect_yearly eps_source (extended_years years),
   collect_yearly div_source years,
   collect_yearly bs_source (extended_years years)⟩

/-- The equity component of one `build_lookups_from_metrics` row step. -/
theorem build_lookups_step_equity_field (L : Lookups) (r : LedgerRow) :
    (build_lookups_step L r).equity =
      if r.code = "" ∨ r.quarter = "" then L.equity
      else match r.equity with
        | some v => update3 L.equity r.code r.year r.quarter v
        | none => L.equity := by
  rcases r with ⟨c, y, q, e, p, eq, cd⟩
  cases e <;> cases p <;> cases eq <;> cases cd <;>
    simp only [build_lookups_step] <;>
    (repeat' first | rfl | (split <;> try rfl))

theorem equity_fold_isSome (rows : List LedgerRow) :
    ∀ (L : Lookups) (code : String) (yy : Int) (qq : String),
    ((L.equity code yy qq).isSome ∨
      ∃ r ∈ rows, r.code = code ∧ r.year = yy ∧ r.quarter = qq ∧
        r.equity.isSome ∧ ¬ (r.code = "" ∨ r.quarter = "")) →
    ((rows.foldl build_lookups_step L).equity code yy qq).isSome := by
  induction rows with
  | nil =>
    intro L code yy qq h
    rcases h with h | ⟨r, hr, _⟩
    · exact h
    · exact absurd hr (List.not_mem_nil r)
  | cons r rs ih =>
    intro L code yy qq h
    rw [List.foldl_cons]
    have hstep : ∀ (h' : (L.equity code yy qq).isSome ∨
        (r.code = code ∧ r.year = yy ∧ r.quarter = qq ∧ r.equity.isSome ∧
          ¬ (r.code = "" ∨ r.quarter = ""))),
        ((build_lookups_step L r).equity code yy qq).isSome := by
      intro h'
      rw [build_lookups_step_equity_field]
      rcases h' with h' | ⟨hc, hy, hq, hes, hguard⟩
      · by_cases hg : r.code = "" ∨ r.quarter = ""
        · rw [if_pos hg]; exact h'
        · rw [if_neg hg]
          cases he : r.equity with
          | none => exact h'
          | some v =>
            dsimp only
            rw [update3]
            by_cases hkey : code = r.code ∧ yy = r.year ∧ qq = r.quarter
            · rw [if_pos hkey]; rfl
            · rw [if_neg hkey]; exact h'
      · rw [if_neg hguard]
        cases he : r.equity with
        | none => rw [he] at hes; exact absurd hes (by simp)
        | some v =>
          dsimp only
          rw [update3, if_pos ⟨hc.symm, hy.symm, hq.symm⟩]
          rfl
    rcases h with h | ⟨t, ht, hprop⟩
    · exact ih _ code yy qq (Or.inl (hstep (Or.inl h)))
    · rcases List.mem_cons.mp ht with rfl | ht'
      · exact ih _ code yy qq (Or.inl (hstep (Or.inr hprop)))
      · exact ih _ code yy qq (Or.inr ⟨t, ht', hprop⟩)

/-- C10: for a nonempty requested year list, the loader also loads the
year immediately preceding the earliest requested one — it is a member of
the extended year list, and income-statement and balance-sheet rows of
that year reach `eps_df` and `bs_df` in the fallback path — while in the
precomputed path the equity lookup is built over the whole ledger, so the
prior-year-end `Q4` equity needed for the earliest year's ROE is present
whenever any ledger row carries it. -/
theorem C10_prior_year_available
    (eps_source div_source bs_source : Int → Option (List LedgerRow))
    (y : Int) (ys : List Int) (ledger : List LedgerRow) (code : String) :
    ((ys.foldl min y - 1) ∈ extended_years (y :: ys)) ∧
    (∀ rows, bs_source (ys.foldl min y - 1) = some rows →
      ∀ r ∈ rows, r ∈ (load_from_original eps_source div_source bs_source (y :: ys)).bs_df) ∧
    (∀ rows, eps_source (ys.foldl min y - 1) = some rows →
      ∀ r ∈ rows, r ∈ (load_from_original eps_source div_source bs_source (y :: ys)).eps_df) ∧
    ((∃ r ∈ ledger, r.code = code ∧ r.year = ys.foldl min y - 1 ∧
        r.quarter = "Q4" ∧ r.equity.isSome) → code ≠ "" →
      ((build_lookups ledger).equity code (ys.foldl min y - 1) "Q4").isSome) := by
  have hmem : (ys.foldl min y - 1) ∈ extended_years (y :: ys) := by
    rw [extended_years]
    by_cases hin : (ys.foldl min y - 1) ∈ y :: ys
    · rw [if_pos hin]; exact hin
    · rw [if_neg hin]
      exact List.mem_append.mpr (Or.inr (List.mem_singleton.mpr rfl))
  refine ⟨hmem, ?_, ?_, ?_⟩
  · intro rows hrows r hr
    show r ∈ collect_yearly bs_source (extended_years (y :: ys))
    rw [collect_yearly, List.mem_flatMap]
    exact ⟨ys.foldl min y - 1, hmem, by rw [hrows]; exact hr⟩
  · intro rows hrows r hr
    show r ∈ collect_yearly eps_source (extended_years (y :: ys))
    rw [collect_yearly, List.mem_flatMap]
    exact ⟨ys.foldl min y - 1, hmem, by rw [hrows]; exact hr⟩
  · rintro ⟨r, hr, hc, hy, hq, hes⟩ hcode
    rw [build_lookups]
    apply equity_fold_isSome
    refine Or.inr ⟨r, hr, hc, hy, hq, hes, ?_⟩
    rw [hc, hq]
    rintro (h | h)
    · exact hcode h
    · exact absurd h (by decide)

/-- C10 witness: requesting years [113, 112] loads year 111 in both
loader paths, and a ledger row (B, 111, Q4) with present equity makes the
beginning balance for year 112's ROE available. -/
theorem C10_prior_year_available_witness :
    ((111 : Int) ∈ extended_years [113, 112]) ∧
    (⟨"B", 111, "Q4", none, none, some 7, none⟩ : LedgerRow) ∈
      (load_from_original (fun _ => none) (fun _ => none)
        (fun yr => if yr = 111 then some [⟨"B", 111, "Q4", none, none, some 7, none⟩] else none)
        [113, 112]).bs_df ∧
    ((build_lookups [⟨"B", 111, "Q4", none, none, some 7, none⟩]).equity
      "B" 111 "Q4").isSome := by
  have h := C10_prior_year_available (fun _ => none) (fun _ => none)
    (fun yr => if yr = 111 then some [⟨"B", 111, "Q4", none, none, some 7, none⟩] else none)
    113 [112] [⟨"B", 111, "Q4", none, none, some 7, none⟩] "B"
  refine ⟨?_, ?_, ?_⟩
  · have := h.1
    norm_num at this ⊢
    exact this
  · have := h.2.1 [⟨"B", 111, "Q4", none, none, some 7, none⟩] (by norm_num)
      ⟨"B", 111, "Q4", none, none, some 7, none⟩ (List.mem_singleton.mpr rfl)
    norm_num at this ⊢
    exact this
  · have := h.2.2.2 ⟨⟨"B", 111, "Q4", none, none, some 7, none⟩,
      List.mem_singleton.mpr rfl, rfl, by norm_num, rfl, by simp⟩ (by decide)
    norm_num at this ⊢
    exact this

end StockScreener
